import Mathlib

/-!
Verification development for the Texas Hold'em engine
(`src/models/card_system.py` and `src/models/game_engine.py`).

The Python source is shallowly embedded: Python `int` chip/bet arithmetic
becomes `Int`, card ranks (always in 1..14) become `Nat`, mutable objects
become records threaded through pure functions, and Python's stable
`list.sort` / `sorted` become `List.insertionSort` with a non-strict
comparison (which is likewise stable).  Randomness (`random.shuffle`) is
modelled by passing the post-shuffle deck order as an explicit argument.
-/

namespace Poker

/-- `Suit` enum of `card_system.py` (♣ ♦ ♥ ♠). -/
inductive Suit where
  | clubs | diamonds | hearts | spades
deriving DecidableEq, Repr

/-- `Rank` enum of `card_system.py`; `numericValue` is `Rank.numeric_value`. -/
inductive Rank where
  | two | three | four | five | six | seven | eight | nine | ten
  | jack | queen | king | ace
deriving DecidableEq, Repr

/-- `Rank.numeric_value`: 2..10, J=11, Q=12, K=13, A=14. -/
def Rank.numericValue : Rank → Nat
  | .two => 2 | .three => 3 | .four => 4 | .five => 5 | .six => 6
  | .seven => 7 | .eight => 8 | .nine => 9 | .ten => 10
  | .jack => 11 | .queen => 12 | .king => 13 | .ace => 14

/-- `Card` dataclass: a suit and a rank. -/
structure Card where
  suit : Suit
  rank : Rank
deriving DecidableEq, Repr

instance : Inhabited Card := ⟨⟨.clubs, .two⟩⟩

/-- `HandRank` enum: the ten hand tiers. -/
inductive HandRank where
  | highCard | onePair | twoPair | threeKind | straight
  | flush | fullHouse | fourKind | straightFlush | royalFlush
deriving DecidableEq, Repr

/-- `HandRank.rank_value`: 1 (high card) .. 10 (royal flush). -/
def HandRank.rankValue : HandRank → Nat
  | .highCard => 1 | .onePair => 2 | .twoPair => 3 | .threeKind => 4
  | .straight => 5 | .flush => 6 | .fullHouse => 7 | .fourKind => 8
  | .straightFlush => 9 | .royalFlush => 10

/-- `HandEvaluation` dataclass (tier, primary, secondary, kickers, best five
cards).  Rank values are `Nat` since Python only ever stores values
in 1..14 here. -/
structure HandEvaluation where
  handRank : HandRank
  primaryValue : Nat
  secondaryValue : Nat := 0
  kickers : List Nat := []
  bestCards : List Card := []
deriving DecidableEq, Repr

/-- One comparison step of `HandEvaluation.__lt__`:
`if x != y: return x < y`, else fall through to the next comparison. -/
def cmpStep (x y : Nat) (rest : Bool) : Bool :=
  if x ≠ y then decide (x < y) else rest

/-- The kicker loop of `HandEvaluation.__lt__`:
`for k1, k2 in zip(...): if k1 != k2: return k1 < k2`, then `False`.
Only the common prefix of the two lists is compared. -/
def kickersLt : List Nat → List Nat → Bool
  | k1 :: t1, k2 :: t2 => cmpStep k1 k2 (kickersLt t1 t2)
  | _, _ => false

/-- `HandEvaluation.__lt__`: compare tier, then primary, then secondary,
then kickers pairwise; otherwise `False`. -/
def HandEvaluation.lt (a b : HandEvaluation) : Bool :=
  cmpStep a.handRank.rankValue b.handRank.rankValue
    (cmpStep a.primaryValue b.primaryValue
      (cmpStep a.secondaryValue b.secondaryValue
        (kickersLt a.kickers b.kickers)))

/-- `HandEvaluation.__eq__`: tier, primary, secondary and the kicker lists
all equal (`best_cards` is not compared). -/
def HandEvaluation.eqv (a b : HandEvaluation) : Bool :=
  a.handRank.rankValue == b.handRank.rankValue &&
  a.primaryValue == b.primaryValue &&
  a.secondaryValue == b.secondaryValue &&
  a.kickers == b.kickers

/-- `HandEvaluation.__le__` = `lt or eq`. -/
def HandEvaluation.le (a b : HandEvaluation) : Bool := a.lt b || a.eqv b

/-- `HandEvaluation.__gt__` = `not (self <= other)`. -/
def HandEvaluation.gt (a b : HandEvaluation) : Bool := !(a.le b)

/-- `HandEvaluation.__ge__` = `not (self < other)`. -/
def HandEvaluation.ge (a b : HandEvaluation) : Bool := !(a.lt b)

/-- `CardSystem._create_deck()`: all 52 suit×rank combinations, suits in
enum order (♣ ♦ ♥ ♠), ranks 2..A inside each suit. -/
def createDeck : List Card :=
  [Suit.clubs, Suit.diamonds, Suit.hearts, Suit.spades].flatMap fun s =>
    [Rank.two, .three, .four, .five, .six, .seven, .eight, .nine, .ten,
     .jack, .queen, .king, .ace].map fun r => ⟨s, r⟩

/-- `CardSystem.deal_card()`: pop from the tail; `None` on an empty deck.
Returns the dealt card (if any) together with the remaining deck. -/
def dealCard (deck : List Card) : Option Card × List Card :=
  match deck.getLast? with
  | none => (none, deck)
  | some c => (some c, deck.dropLast)

/-- `CardSystem.deal_cards(count)`: deal repeatedly, silently skipping
`None` results, so an exhausted deck yields a short list. -/
def dealCards : Nat → List Card → List Card × List Card
  | 0, deck => ([], deck)
  | n + 1, deck =>
    match dealCard deck with
    | (none, deck') => let (cs, d) := dealCards n deck'; (cs, d)
    | (some c, deck') => let (cs, d) := dealCards n deck'; (c :: cs, d)

/-- Descending comparison by rank value (the Python sort key of
`sorted(cards, key=numeric_value, reverse=True)`). -/
def cardGe (a b : Card) : Prop := b.rank.numericValue ≤ a.rank.numericValue

instance : DecidableRel cardGe := fun a b =>
  Nat.decLe b.rank.numericValue a.rank.numericValue

instance : IsTotal Card cardGe :=
  ⟨fun a b => (le_total b.rank.numericValue a.rank.numericValue)⟩

instance : IsTrans Card cardGe :=
  ⟨fun _ _ _ h1 h2 => le_trans h2 h1⟩

/-- Python `sorted(cards, key=numeric_value, reverse=True)`: stable
descending sort by rank. `insertionSort` with a non-strict relation is
stable in the same way. -/
def sortCardsDesc (cards : List Card) : List Card :=
  cards.insertionSort cardGe

/-- Descending comparison on plain rank values. -/
def natGe (a b : Nat) : Prop := b ≤ a

instance : DecidableRel natGe := fun a b => Nat.decLe b a

instance : IsTotal Nat natGe := ⟨fun a b => le_total b a⟩

instance : IsTrans Nat natGe := ⟨fun _ _ _ h1 h2 => le_trans h2 h1⟩

/-- Python `sorted(ns, reverse=True)` on plain rank values. -/
def sortNatDesc (ns : List Nat) : List Nat :=
  ns.insertionSort natGe

/-- `collections.Counter(ranks).items()` in first-occurrence order:
the distinct values paired with their multiplicities. -/
def counterItems (ranks : List Nat) : List (Nat × Nat) :=
  (ranks.foldl (fun acc r => if r ∈ acc then acc else acc ++ [r]) []).map
    fun r => (r, ranks.count r)

/-- `CardSystem._is_straight(ranks)`: every adjacent pair of the
descending rank list differs by exactly 1.  (On `Nat`, `r1 - r2 = 1`
holds exactly when the Python int difference is 1.) -/
def isStraightRanks : List Nat → Bool
  | r1 :: r2 :: rest => decide (r1 - r2 = 1) && isStraightRanks (r2 :: rest)
  | _ => true

/-- `CardSystem._evaluate_five_cards(cards)`: classify five cards into one
of the ten tiers.  (`sorted_cards[0]` / `ranks[0]` on the non-empty
five-card input become `headI`.) -/
def evaluateFiveCards (cards : List Card) : HandEvaluation :=
  let sortedCards0 := sortCardsDesc cards
  let ranks0 := sortedCards0.map (·.rank.numericValue)
  let suits := sortedCards0.map (·.suit)
  let items := counterItems ranks0
  let countValues := sortNatDesc (items.map Prod.snd)
  let isFlush := suits.dedup.length == 1
  -- A-2-3-4-5 special case: Ace counts as 1 and moves to the end.
  let wheel := ranks0 == [14, 5, 4, 3, 2]
  let isStraight := isStraightRanks ranks0 || wheel
  let ranks := if wheel then [5, 4, 3, 2, 1] else ranks0
  let sortedCards := if wheel then sortedCards0.tail ++ [sortedCards0.headI]
                     else sortedCards0
  if isStraight && isFlush then
    if ranks.headI == 14 then
      { handRank := .royalFlush, primaryValue := ranks.headI,
        bestCards := sortedCards }
    else
      { handRank := .straightFlush, primaryValue := ranks.headI,
        bestCards := sortedCards }
  else if countValues == [4, 1] then
    { handRank := .fourKind,
      primaryValue := ((items.filter (·.2 == 4)).map Prod.fst).headI,
      kickers := [((items.filter (·.2 == 1)).map Prod.fst).headI],
      bestCards := sortedCards }
  else if countValues == [3, 2] then
    { handRank := .fullHouse,
      primaryValue := ((items.filter (·.2 == 3)).map Prod.fst).headI,
      secondaryValue := ((items.filter (·.2 == 2)).map Prod.fst).headI,
      bestCards := sortedCards }
  else if isFlush then
    { handRank := .flush, primaryValue := ranks.headI,
      kickers := ranks.tail, bestCards := sortedCards }
  else if isStraight then
    { handRank := .straight, primaryValue := ranks.headI,
      bestCards := sortedCards }
  else if countValues == [3, 1, 1] then
    { handRank := .threeKind,
      primaryValue := ((items.filter (·.2 == 3)).map Prod.fst).headI,
      kickers := sortNatDesc ((items.filter (·.2 == 1)).map Prod.fst),
      bestCards := sortedCards }
  else if countValues == [2, 2, 1] then
    let pairs := sortNatDesc ((items.filter (·.2 == 2)).map Prod.fst)
    { handRank := .twoPair,
      primaryValue := pairs.headI,
      secondaryValue := (pairs.tail).headI,
      kickers := [((items.filter (·.2 == 1)).map Prod.fst).headI],
      bestCards := sortedCards }
  else if countValues == [2, 1, 1, 1] then
    { handRank := .onePair,
      primaryValue := ((items.filter (·.2 == 2)).map Prod.fst).headI,
      kickers := sortNatDesc ((items.filter (·.2 == 1)).map Prod.fst),
      bestCards := sortedCards }
  else
    { handRank := .highCard, primaryValue := ranks.headI,
      kickers := ranks.tail, bestCards := sortedCards }

/-- `itertools.combinations(l, n)` in the same (index-lexicographic)
order. -/
def combinations {α : Type} : Nat → List α → List (List α)
  | 0, _ => [[]]
  | _ + 1, [] => []
  | n + 1, x :: xs =>
      ((combinations n xs).map (x :: ·)) ++ combinations (n + 1) xs

/-- `CardSystem.evaluate_hand(hole_cards, community_cards)`: with fewer
than five cards, a high-card evaluation of the cards as given
(`sorted_cards[0]` raises in Python on an empty input; here `headI`);
otherwise the scan `if best is None or evaluation > best` over every
five-card combination. -/
def evaluateHand (holeCards communityCards : List Card) : HandEvaluation :=
  let allCards := holeCards ++ communityCards
  if allCards.length < 5 then
    let sortedCards := sortCardsDesc allCards
    { handRank := .highCard,
      primaryValue := sortedCards.headI.rank.numericValue,
      kickers := sortedCards.tail.map (·.rank.numericValue),
      bestCards := allCards }
  else
    let scan := (combinations 5 allCards).foldl
      (fun best five =>
        let evaluation := evaluateFiveCards five
        match best with
        | none => some evaluation
        | some b => if evaluation.gt b then some evaluation else some b)
      none
    scan.getD { handRank := .highCard, primaryValue := 0 }

/-! ### Embedding of `src/models/game_engine.py` -/

/-- `GamePhase` enum. -/
inductive GamePhase where
  | waiting | preFlop | flop | turn | river | showdown | gameOver
deriving DecidableEq, Repr

/-- `PlayerAction` enum. -/
inductive PlayerAction where
  | fold | check | call | raise | allIn
deriving DecidableEq, Repr

/-- `PlayerStatus` enum. -/
inductive PlayerStatus where
  | active | folded | allIn | waiting
deriving DecidableEq, Repr

/-- `GamePlayer` dataclass.  `last_action_time` is dropped (wall-clock
only); chips and bets are Python `int`, hence `Int`. -/
structure GamePlayer where
  playerId : String
  chips : Int
  holeCards : List Card := []
  currentBet : Int := 0
  totalBet : Int := 0
  status : PlayerStatus := .waiting
  position : Nat := 0
  isDealer : Bool := false
  isSmallBlind : Bool := false
  isBigBlind : Bool := false
  lastAction : Option PlayerAction := none
deriving DecidableEq, Repr

instance : Inhabited GamePlayer := ⟨{ playerId := "", chips := 0 }⟩

/-- `GamePlayer.reset_for_new_hand`. -/
def GamePlayer.resetForNewHand (p : GamePlayer) : GamePlayer :=
  { p with holeCards := [], currentBet := 0, totalBet := 0,
           status := if 0 < p.chips then .active else .waiting,
           lastAction := none }

/-- `GamePlayer.can_act`: status ACTIVE or WAITING and chips > 0. -/
def GamePlayer.canAct (p : GamePlayer) : Bool :=
  (p.status == .active || p.status == .waiting) && decide (0 < p.chips)

/-- `GamePlayer.is_in_hand`: status ACTIVE or ALL_IN. -/
def GamePlayer.isInHand (p : GamePlayer) : Bool :=
  p.status == .active || p.status == .allIn

/-- `SidePot` dataclass. -/
structure SidePot where
  amount : Int
  eligiblePlayers : List String
deriving DecidableEq, Repr

/-- The mutable state of a `TexasHoldemGame`.  The Python `players` dict
(insertion-ordered, unique keys) becomes a list of players in insertion
order; `game_results`, `action_history` and the timeout task are
bookkeeping not touched by any claim and are omitted.  The dynamically
added/deleted `_last_phase_starter` attribute becomes an `Option`. -/
structure GameState where
  roomId : String := ""
  smallBlind : Int := 0
  bigBlind : Int := 0
  maxPlayers : Nat := 6
  gamePhase : GamePhase := .waiting
  handNumber : Nat := 0
  dealerPosition : Nat := 0
  players : List GamePlayer := []
  playerOrder : List String := []
  activePlayers : List String := []
  currentPlayerIndex : Nat := 0
  currentPlayerId : Option String := none
  lastRaisePlayerId : Option String := none
  currentBet : Int := 0
  deck : List Card := createDeck
  communityCards : List Card := []
  mainPot : Int := 0
  sidePots : List SidePot := []
  lastPhaseStarter : Option String := none
deriving DecidableEq, Repr

/-- `TexasHoldemGame.__init__`. -/
def initGame (roomId : String) (smallBlind bigBlind : Int)
    (maxPlayers : Nat := 6) : GameState :=
  { roomId := roomId, smallBlind := smallBlind, bigBlind := bigBlind,
    maxPlayers := maxPlayers }

/-- `self.players[pid]` lookup (keys are unique in the Python dict). -/
def GameState.getPlayer (s : GameState) (pid : String) : Option GamePlayer :=
  s.players.find? (·.playerId == pid)

/-- In-place mutation of `self.players[pid]` (unique keys, so mapping over
every matching entry agrees with the dict update). -/
def GameState.updatePlayer (s : GameState) (pid : String)
    (f : GamePlayer → GamePlayer) : GameState :=
  { s with players := s.players.map fun p =>
      if p.playerId == pid then f p else p }

/-- `TexasHoldemGame.add_player`. -/
def addPlayer (s : GameState) (pid : String) (chips : Int) :
    Bool × GameState :=
  if s.maxPlayers ≤ s.players.length then (false, s)
  else if (s.getPlayer pid).isSome then (false, s)
  else
    (true, { s with
      players := s.players ++ [{ playerId := pid, chips := chips,
                                 position := s.players.length }],
      playerOrder := s.playerOrder ++ [pid] })

/-- `_set_dealer_and_blinds`. -/
def setDealerAndBlinds (s : GameState) : GameState :=
  let activeIds := s.playerOrder.filter fun pid =>
    match s.getPlayer pid with
    | some p => decide (0 < p.chips)
    | none => false
  if activeIds.length < 2 then s
  else
    let dealerId := activeIds.getD (s.dealerPosition % activeIds.length) ""
    let s1 := s.updatePlayer dealerId fun p => { p with isDealer := true }
    let sbId :=
      if activeIds.length == 2 then dealerId
      else activeIds.getD ((s.dealerPosition + 1) % activeIds.length) ""
    let bbId :=
      if activeIds.length == 2 then
        activeIds.getD ((s.dealerPosition + 1) % activeIds.length) ""
      else activeIds.getD ((s.dealerPosition + 2) % activeIds.length) ""
    let s2 := s1.updatePlayer sbId fun p => { p with isSmallBlind := true }
    let s3 := s2.updatePlayer bbId fun p => { p with isBigBlind := true }
    { s3 with dealerPosition := (s.dealerPosition + 1) % activeIds.length }

/-- One round of `_deal_hole_cards`: one card to every funded player in
seat order. -/
def dealHoleRound (s : GameState) : GameState :=
  s.playerOrder.foldl
    (fun st pid =>
      match st.getPlayer pid with
      | none => st
      | some p =>
        if 0 < p.chips then
          match dealCard st.deck with
          | (some c, deck') =>
            ({ st with deck := deck' }).updatePlayer pid fun q =>
              { q with holeCards := q.holeCards ++ [c] }
          | (none, _) => st
        else st)
    s

/-- `_deal_hole_cards`: `reset_deck()` (modelled by installing the given
post-shuffle deck) then two dealing rounds. -/
def dealHoleCards (shuffledDeck : List Card) (s : GameState) : GameState :=
  dealHoleRound (dealHoleRound { s with deck := shuffledDeck })

/-- `_collect_blinds`: iterate the players in dict order, posting the
small and big blinds (capped by the player's chips). -/
def collectBlinds (s : GameState) : GameState :=
  (s.players.map (·.playerId)).foldl
    (fun st pid =>
      match st.getPlayer pid with
      | none => st
      | some p =>
        if p.isSmallBlind && decide (0 < p.chips) then
          let blindAmount := min st.smallBlind p.chips
          let p1 := { p with currentBet := blindAmount,
                             totalBet := blindAmount,
                             chips := p.chips - blindAmount }
          let p2 := if p1.chips == (0 : Int) then { p1 with status := .allIn } else p1
          ({ st with mainPot := st.mainPot + blindAmount }).updatePlayer pid
            fun _ => p2
        else if p.isBigBlind && decide (0 < p.chips) then
          let blindAmount := min st.bigBlind p.chips
          let p1 := { p with currentBet := blindAmount,
                             totalBet := blindAmount,
                             chips := p.chips - blindAmount }
          let p2 := if p1.chips == (0 : Int) then { p1 with status := .allIn } else p1
          ({ st with mainPot := st.mainPot + blindAmount,
                     currentBet := blindAmount }).updatePlayer pid
            fun _ => p2
        else st)
    s

/-- `_set_action_order`: recompute the acting list and the first actor.
Pre-flop: left of the big blind (small blind first when heads-up); later
streets rotate the starter across streets (`_last_phase_starter`). -/
def setActionOrder (s : GameState) : GameState :=
  let active := s.playerOrder.filter fun pid =>
    match s.getPlayer pid with
    | some p => p.isInHand && p.canAct
    | none => false
  let s := { s with activePlayers := active }
  if active.isEmpty then s
  else
    let sbId := s.playerOrder.find? fun pid =>
      ((s.getPlayer pid).map (·.isSmallBlind)).getD false
    let bbId := s.playerOrder.find? fun pid =>
      ((s.getPlayer pid).map (·.isBigBlind)).getD false
    let startIndex :=
      if s.gamePhase == .preFlop then
        if active.length == 2 then
          match sbId with
          | some pid => if active.contains pid then active.indexOf pid else 0
          | none => 0
        else
          match bbId with
          | some pid =>
            if active.contains pid then
              (active.indexOf pid + 1) % active.length
            else 0
          | none => 0
      else
        match s.lastPhaseStarter with
        | some starter =>
          if active.contains starter then
            (active.indexOf starter + 1) % active.length
          else 0
        | none =>
          match sbId with
          | some pid => if active.contains pid then active.indexOf pid else 0
          | none => 0
    let s :=
      if s.gamePhase == .preFlop then s
      else { s with lastPhaseStarter := some (active.getD startIndex "") }
    { s with currentPlayerIndex := startIndex,
             currentPlayerId := some (active.getD startIndex ""),
             lastRaisePlayerId := none }

/-- Python `max(p.current_bet for p in in_hand_players)` (non-empty in
every call site; 0 only for the impossible empty list). -/
def maxCurrentBet (ps : List GamePlayer) : Int :=
  match ps.map (·.currentBet) with
  | [] => 0
  | b :: bs => bs.foldl max b

/-- `_is_betting_round_complete`: the round is over when at most one
player is in the hand, or nobody can act, or the `unmatched_players`
list assembled by the three passes of the source is empty. -/
def isBettingRoundComplete (s : GameState) : Bool :=
  let inHand := s.players.filter (·.isInHand)
  if inHand.length ≤ 1 then true
  else
    let canActPlayers := inHand.filter (·.canAct)
    if canActPlayers.isEmpty then true
    else
      let maxBet := maxCurrentBet inHand
      -- pass 1: can-act players below the max bet (all-in players skipped)
      let unmatched1 := (inHand.filter fun p =>
        p.status != .allIn && p.canAct && decide (p.currentBet < maxBet)).map
          (·.playerId)
      -- blinds count as having acted even with no action this round
      let playersActed := (inHand.filter fun p =>
        p.status != .allIn && p.canAct &&
          (!p.lastAction.isNone || p.isSmallBlind || p.isBigBlind)).length
      -- pass 2: with no bet on the table, non-blind players yet to act
      let unmatched2 :=
        if maxBet == (0 : Int) && decide (playersActed < canActPlayers.length)
        then
          (inHand.filter fun p =>
            p.canAct && p.lastAction.isNone &&
              !(p.isSmallBlind || p.isBigBlind)).map (·.playerId)
        else []
      -- pass 3: after a raise, everyone else must have matched it
      let unmatched3 :=
        match s.lastRaisePlayerId with
        | some raiserId =>
          if decide ((0 : Int) < maxBet) then
            (inHand.filter fun p =>
              p.canAct && p.playerId != raiserId &&
                decide (p.currentBet < maxBet)).map (·.playerId)
          else []
        | none => []
      (unmatched1 ++ unmatched2 ++ unmatched3).isEmpty

/-- `_move_to_next_player`: rotate to the next id in `active_players`. -/
def moveToNextPlayer (s : GameState) : GameState :=
  if s.gamePhase == .gameOver then s
  else if s.activePlayers.isEmpty then s
  else if s.activePlayers.length ≤ 1 then s
  else
    let nextIndex :=
      match s.currentPlayerId with
      | some pid =>
        if s.activePlayers.contains pid then
          (s.activePlayers.indexOf pid + 1) % s.activePlayers.length
        else 0
      | none => 0
    { s with currentPlayerIndex := nextIndex,
             currentPlayerId := some (s.activePlayers.getD nextIndex "") }

/-- `_handle_immediate_win`: award main pot plus side pots to the last
player standing and finish the hand (the results map is bookkeeping and
is omitted). -/
def handleImmediateWin (winnerId : String) (s : GameState) : GameState :=
  let totalPot := s.mainPot + (s.sidePots.map (·.amount)).sum
  let s := s.updatePlayer winnerId fun p =>
    { p with chips := p.chips + totalPot }
  { s with gamePhase := .gameOver }

/-- `_handle_fold_action`: mark folded, drop from the acting list, and
finish the hand at once when at most one player remains in it. -/
def handleFoldAction (pid : String) (s : GameState) : GameState :=
  let s := s.updatePlayer pid fun p =>
    { p with status := .folded, lastAction := some .fold }
  let s := { s with activePlayers := s.activePlayers.erase pid }
  let playersInHand := s.players.filter (·.isInHand)
  if playersInHand.length == 1 then
    handleImmediateWin (playersInHand.headI).playerId s
  else if playersInHand.length == 0 then
    { s with gamePhase := .gameOver }   -- `_end_game`
  else s

/-- `_handle_check_action`. -/
def handleCheckAction (pid : String) (s : GameState) : GameState :=
  s.updatePlayer pid fun p => { p with lastAction := some .check }

/-- `_handle_call_action`: pay the call gap, or everything as an implicit
all-in when the gap reaches the stack. -/
def handleCallAction (pid : String) (s : GameState) : GameState :=
  match s.getPlayer pid with
  | none => s
  | some player =>
    let callAmount := s.currentBet - player.currentBet
    let betAmount := if player.chips ≤ callAmount then player.chips
                     else callAmount
    let player :=
      if player.chips ≤ callAmount then
        { player with chips := 0, status := .allIn }
      else { player with chips := player.chips - callAmount }
    let player := { player with currentBet := player.currentBet + betAmount,
                                totalBet := player.totalBet + betAmount,
                                lastAction := some .call }
    ({ s with mainPot := s.mainPot + betAmount }).updatePlayer pid
      fun _ => player

/-- `_handle_raise_action`: pay call gap plus raise (or all-in), lift the
table bet to the player's new round bet and record the raiser. -/
def handleRaiseAction (pid : String) (raiseAmount : Int) (s : GameState) :
    GameState :=
  match s.getPlayer pid with
  | none => s
  | some player =>
    let callAmount := s.currentBet - player.currentBet
    let totalBet := callAmount + raiseAmount
    let betAmount := if player.chips ≤ totalBet then player.chips
                     else totalBet
    let player :=
      if player.chips ≤ totalBet then
        { player with chips := 0, status := .allIn }
      else { player with chips := player.chips - totalBet }
    let player := { player with currentBet := player.currentBet + betAmount,
                                totalBet := player.totalBet + betAmount,
                                lastAction := some .raise }
    let s := ({ s with mainPot := s.mainPot + betAmount }).updatePlayer pid
      fun _ => player
    { s with currentBet := player.currentBet,
             lastRaisePlayerId := some pid }

/-- `_handle_all_in_action`: push the stack; counts as a raise when it
beats the table bet. -/
def handleAllInAction (pid : String) (s : GameState) : GameState :=
  match s.getPlayer pid with
  | none => s
  | some player =>
    let betAmount := player.chips
    let player := { player with currentBet := player.currentBet + betAmount,
                                totalBet := player.totalBet + betAmount,
                                chips := 0, status := .allIn,
                                lastAction := some .allIn }
    let s := s.updatePlayer pid fun _ => player
    let s :=
      if s.currentBet < player.currentBet then
        { s with currentBet := player.currentBet,
                 lastRaisePlayerId := some pid }
      else s
    { s with mainPot := s.mainPot + betAmount }

/-- `_calculate_side_pots` inner loop over the ascending bet list:
`(player_id, bet_amount)` entries, `prev_bet` threaded; each new level
opens a pot of `(bet - prev) * len(bets[i:])` for the suffix. -/
def buildSidePots : Int → List (String × Int) → List SidePot
  | _, [] => []
  | prevBet, (pid, betAmount) :: rest =>
    if prevBet < betAmount then
      { amount := (betAmount - prevBet) * ((rest.length : Int) + 1),
        eligiblePlayers := pid :: rest.map Prod.fst } ::
        buildSidePots betAmount rest
    else
      buildSidePots prevBet rest

/-- Ascending comparison by bet amount (the Python sort key of
`bets.sort(key=lambda x: x[1])`). -/
def betLe (a b : String × Int) : Prop := a.2 ≤ b.2

instance : DecidableRel betLe := fun a b => Int.decLe a.2 b.2

instance : IsTotal (String × Int) betLe := ⟨fun a b => le_total a.2 b.2⟩

instance : IsTrans (String × Int) betLe := ⟨fun _ _ _ h1 h2 => le_trans h1 h2⟩

/-- Python `bets.sort(key=lambda x: x[1])`: stable ascending sort by
amount. -/
def sortBetsAsc (bets : List (String × Int)) : List (String × Int) :=
  bets.insertionSort betLe

/-- The bet collection of `_calculate_side_pots`: `(player_id, total_bet)`
for every player with a positive total bet, in player order. -/
def betsOf (s : GameState) : List (String × Int) :=
  (s.players.filter fun p => decide (0 < p.totalBet)).map
    fun p => (p.playerId, p.totalBet)

/-- `_calculate_side_pots`: collect positive total bets in player order,
sort ascending, cut into layered pots. -/
def calculateSidePots (s : GameState) : GameState :=
  let bets := betsOf s
  if bets.isEmpty then s
  else { s with sidePots := buildSidePots 0 (sortBetsAsc bets) }

/-- Python `max(...)` over hand evaluations, scanning with `__gt__`. -/
def maxEvaluation : List HandEvaluation → Option HandEvaluation
  | [] => none
  | e :: es => some (es.foldl (fun cur x => if x.gt cur then x else cur) e)

/-- `_distribute_winnings`: one pot covering the main pot when no side
pots exist; each pot split evenly among its best eligible hands with the
remainder going to the earliest winners; a pot none of whose eligible
players was evaluated is skipped.  Only chip movements are modelled (the
results map is bookkeeping). -/
def distributeWinnings (evaluations : List (String × HandEvaluation))
    (s : GameState) : GameState :=
  let s :=
    if s.sidePots.isEmpty then
      { s with sidePots := [⟨s.mainPot, evaluations.map Prod.fst⟩] }
    else s
  s.sidePots.foldl
    (fun st pot =>
      let eligibleEvals := evaluations.filter fun pe =>
        pot.eligiblePlayers.contains pe.1
      match maxEvaluation (eligibleEvals.map Prod.snd) with
      | none => st
      | some best =>
        let winners := (eligibleEvals.filter fun pe =>
          pe.2.ge best && !(pe.2.lt best)).map Prod.fst
        if winners.isEmpty then st
        else
          let winningsPerPlayer := pot.amount.ediv (winners.length : Int)
          let remainder := pot.amount.emod (winners.length : Int)
          winners.enum.foldl
            (fun st2 iw =>
              let winnings :=
                winningsPerPlayer + (if (iw.1 : Int) < remainder then 1 else 0)
              st2.updatePlayer iw.2 fun p =>
                { p with chips := p.chips + winnings })
            st)
    s

/-- `_handle_showdown`: side pots, evaluation of every in-hand player,
distribution, then GameOver. -/
def handleShowdown (s : GameState) : GameState :=
  let s := calculateSidePots s
  let evaluations := (s.players.filter (·.isInHand)).map fun p =>
    (p.playerId, evaluateHand p.holeCards s.communityCards)
  let s := distributeWinnings evaluations s
  { s with gamePhase := .gameOver }

/-- The burn-then-deal of `_deal_flop` / `_deal_turn` / `_deal_river`. -/
def dealCommunity (n : Nat) (s : GameState) : GameState :=
  let s := { s with deck := (dealCard s.deck).2 }   -- burn card
  (List.range n).foldl
    (fun st _ =>
      match dealCard st.deck with
      | (some c, deck') =>
        { st with deck := deck',
                  communityCards := st.communityCards ++ [c] }
      | (none, deck') => { st with deck := deck' })
    s

/-- The per-street reset in `_advance_to_next_phase`: clear round bets and
actions, drop the raiser marker. -/
def resetForNextStreet (s : GameState) : GameState :=
  { s with players := s.players.map fun p =>
             { p with currentBet := 0, lastAction := none },
           currentBet := 0, lastRaisePlayerId := none }

/-- The round-bet clearing of `_start_betting_round` outside pre-flop. -/
def clearRoundBets (s : GameState) : GameState :=
  { s with players := s.players.map fun p => { p with currentBet := 0 },
           currentBet := 0 }

/-- `_advance_to_next_phase`, with `_start_betting_round` inlined at its
tail (fuelled: the advance-again path fires at most once per remaining
street, so any fuel ≥ 5 is exact). -/
def advancePhase : Nat → GameState → GameState
  | 0, s => s
  | fuel + 1, s =>
    if s.gamePhase == .gameOver then s
    else if s.gamePhase == .river then
      handleShowdown { s with gamePhase := .showdown }
    else
      let s :=
        if s.gamePhase == .preFlop then
          { dealCommunity 3 s with gamePhase := .flop }
        else if s.gamePhase == .flop then
          { dealCommunity 1 s with gamePhase := .turn }
        else if s.gamePhase == .turn then
          { dealCommunity 1 s with gamePhase := .river }
        else s   -- phases outside the four streets fall through
      let s := setActionOrder (resetForNextStreet s)
      -- `_start_betting_round`
      if s.activePlayers.isEmpty then advancePhase fuel s
      else if s.gamePhase != .preFlop then clearRoundBets s
      else s

/-- `_start_betting_round` as called from `start_new_hand`: with nobody
to act, advance at once; otherwise clear round bets outside pre-flop
(blinds stay). -/
def startBettingRound (fuel : Nat) (s : GameState) : GameState :=
  if s.activePlayers.isEmpty then advancePhase fuel s
  else if s.gamePhase != .preFlop then clearRoundBets s
  else s

/-- `_is_valid_action`: the acceptance test of `handle_player_action`. -/
def isValidAction (s : GameState) (pid : String) (action : PlayerAction)
    (amount : Int) : Bool :=
  match s.getPlayer pid with
  | none => false
  | some player =>
    if s.currentPlayerId != some pid then false
    else if !player.canAct then false
    else if s.gamePhase == .waiting || s.gamePhase == .gameOver then false
    else
      match action with
      | .fold => true
      | .check => decide (s.currentBet ≤ player.currentBet)
      | .call =>
        let callAmount := s.currentBet - player.currentBet
        decide (0 < callAmount) && decide (callAmount ≤ player.chips)
      | .raise =>
        let callAmount := s.currentBet - player.currentBet
        let totalNeeded := callAmount + amount
        if decide (player.chips ≤ 0) || decide (amount ≤ 0) then false
        else if decide (player.chips < totalNeeded) then false
        else
          -- the source re-assigns `min_raise = self.big_blind` in the
          -- prior-raise branch too ("这里简化为大盲注"), so the minimum
          -- raise is always the big blind
          let minRaise := s.bigBlind
          let minRaise := if s.bigBlind < s.currentBet then s.bigBlind
                          else minRaise
          decide (minRaise ≤ amount)
      | .allIn => decide (0 < player.chips)

/-- `handle_player_action`: validate, apply, then either close the round
(advancing the phase) or pass the turn (the timer and the history record
are omitted). -/
def handlePlayerAction (s : GameState) (pid : String)
    (action : PlayerAction) (amount : Int := 0) : Bool × GameState :=
  if !isValidAction s pid action amount then (false, s)
  else
    let s :=
      match action with
      | .fold => handleFoldAction pid s
      | .check => handleCheckAction pid s
      | .call => handleCallAction pid s
      | .raise => handleRaiseAction pid amount s
      | .allIn => handleAllInAction pid s
    if isBettingRoundComplete s then (true, advancePhase 8 s)
    else (true, moveToNextPlayer s)

/-- `start_new_hand`, with the post-shuffle deck passed explicitly:
refuses with fewer than 2 registered players, otherwise resets, seats the
blinds, deals, collects blinds and opens the first betting round. -/
def startNewHand (shuffledDeck : List Card) (s : GameState) :
    Bool × GameState :=
  if s.players.length < 2 then (false, s)
  else
    let s := { s with
      handNumber := s.handNumber + 1,
      gamePhase := .preFlop,
      communityCards := [], mainPot := 0, sidePots := [],
      currentBet := 0, lastPhaseStarter := none,
      players := s.players.map fun p =>
        let p := p.resetForNewHand
        let p := if 0 < p.chips then { p with status := .active } else p
        { p with isDealer := false, isSmallBlind := false,
                 isBigBlind := false } }
    let s := setDealerAndBlinds s
    let s := dealHoleCards shuffledDeck s
    let s := collectBlinds s
    let s := setActionOrder s
    let s := startBettingRound 8 s
    (true, s)

/-- `can_start_new_hand`: at least two players with chips. -/
def canStartNewHand (s : GameState) : Bool :=
  decide (2 ≤ (s.players.filter fun p => decide (0 < p.chips)).length)

/-! ### Claim-side definitions (worded from the spec, for comparison) -/

/-- Modelled from the spec: the distinct contribution levels of an
ascending bet list — adjacent duplicates collapsed, so on sorted input
each level appears once, in ascending order. -/
def distinctLevels : List Int → List Int
  | [] => []
  | [x] => [x]
  | x :: y :: rest =>
    if x = y then distinctLevels (y :: rest)
    else x :: distinctLevels (y :: rest)

/-- Modelled from the spec: one pot per level `aᵢ`, of amount
`(aᵢ − aᵢ₋₁) × |{players with total_bet ≥ aᵢ}|`, eligible exactly the
players with `total_bet ≥ aᵢ` (listed in ascending bet order). -/
def claimPots (sortedBets : List (String × Int)) :
    Int → List Int → List SidePot
  | _, [] => []
  | prevLevel, lv :: rest =>
    { amount := (lv - prevLevel) *
        (((sortedBets.filter fun x => decide (lv ≤ x.2)).length : Int)),
      eligiblePlayers :=
        (sortedBets.filter fun x => decide (lv ≤ x.2)).map Prod.fst } ::
    claimPots sortedBets lv rest

/-- Modelled from the spec: the whole side-pot computation as the claim
words it — sort the contribution levels ascending, deduplicate, lay one
pot per level. -/
def sidePotsClaim (bets : List (String × Int)) : List SidePot :=
  claimPots (sortBetsAsc bets) 0
    (distinctLevels ((sortBetsAsc bets).map (·.2)))

/-- Modelled from the spec: raise legality as the claim words it — the
chips must cover call gap plus raise, and the raise must reach the
minimum raise, which is the last raise's increment once a raise has
occurred this round (the big blind size otherwise). -/
def claimRaiseLegal (chips callGap raiseAmount bigBlind
    lastRaiseIncrement : Int) (raiseOccurred : Bool) : Bool :=
  let minRaise := if raiseOccurred then lastRaiseIncrement else bigBlind
  decide (callGap + raiseAmount ≤ chips) && decide (minRaise ≤ raiseAmount)

/-- Modelled from the amended claim: the betting round is closed iff
(a) at most one player remains in the hand, or (b) no in-hand player can
still act, or (c) every in-hand player who can still act has matched the
highest current bet among in-hand players and, when that highest bet is
0, every such player other than the blinds has acted this round (blinds
count as having acted). -/
def closureRule (s : GameState) : Prop :=
  (s.players.filter (·.isInHand)).length ≤ 1 ∨
  (∀ p ∈ s.players.filter (·.isInHand), p.canAct = false) ∨
  ((∀ p ∈ s.players.filter (·.isInHand), p.canAct = true →
      p.currentBet = maxCurrentBet (s.players.filter (·.isInHand))) ∧
   (maxCurrentBet (s.players.filter (·.isInHand)) = 0 →
     ∀ p ∈ s.players.filter (·.isInHand), p.canAct = true →
       p.lastAction ≠ none ∨ p.isSmallBlind = true ∨ p.isBigBlind = true))

/-! ### Concrete scenario states -/

/-- Heads-up table of the spec scenario: blinds 1/2, "alice" and "bob"
with 100 chips each. -/
def headsUpGame : GameState :=
  (addPlayer ((addPlayer (initGame "room" 1 2) "alice" 100).2) "bob" 100).2

/-- The heads-up hand right after `start_new_hand` (the unshuffled deck
stands in for the shuffle): dealer/small blind "alice" to act first, big
blind "bob". -/
def headsUpHand : GameState := (startNewHand createDeck headsUpGame).2

/-- The state of the heads-up hand after the small blind's call has been
applied but before the round-completion check. -/
def headsUpPostCall : GameState := handleCallAction "alice" headsUpHand

/-- The heads-up hand after `handle_player_action("alice", CALL)`. -/
def headsUpAfterCall : Bool × GameState :=
  handlePlayerAction headsUpHand "alice" .call

/-- Three seats with stacks 200/30/20 at blinds 5/10. -/
def threePlayerGame : GameState :=
  (addPlayer ((addPlayer ((addPlayer (initGame "room" 5 10) "A" 200).2)
    "B" 30).2) "C" 20).2

/-- The short-stack hand on `threePlayerGame`: dealer A, small blind B,
big blind C. -/
def allInHandStart : GameState := (startNewHand createDeck threePlayerGame).2

/-- A (under the gun) raises 40 on top of the 10 call. -/
def allInHandStep1 : Bool × GameState :=
  handlePlayerAction allInHandStart "A" .raise 40

/-- B pushes the short stack in. -/
def allInHandStep2 : Bool × GameState :=
  handlePlayerAction allInHandStep1.2 "B" .allIn

/-- C pushes the short stack in; pre-flop closes and the flop is dealt. -/
def allInHandStep3 : Bool × GameState :=
  handlePlayerAction allInHandStep2.2 "C" .allIn

/-- A folds on the flop; the hand runs to showdown on its own. -/
def allInHandFinal : GameState :=
  (handlePlayerAction allInHandStep3.2 "A" .fold).2

/-- Three equal stacks of 100 at blinds 1/2. -/
def threeEqualGame : GameState :=
  (addPlayer ((addPlayer ((addPlayer (initGame "room" 1 2) "A" 100).2)
    "B" 100).2) "C" 100).2

/-- After `start_new_hand` on `threeEqualGame`, the under-the-gun player
A raises 10 on top of the 2 call, lifting the table bet from 2 to 12
(a raise increment of 10); B is next to act. -/
def reRaiseState : GameState :=
  (handlePlayerAction (startNewHand createDeck threeEqualGame).2
    "A" .raise 10).2

/-- Two registered players of whom only one is funded. -/
def brokePlayerGame : GameState :=
  (addPlayer ((addPlayer (initGame "room" 1 2) "A" 100).2) "B" 0).2

/-- The unsuited wheel A-2-3-4-5. -/
def wheelCards : List Card :=
  [⟨.spades, .ace⟩, ⟨.hearts, .two⟩, ⟨.diamonds, .three⟩,
   ⟨.clubs, .four⟩, ⟨.spades, .five⟩]

/-- An unsuited 6-high straight 2-3-4-5-6. -/
def sixHighStraightCards : List Card :=
  [⟨.spades, .six⟩, ⟨.hearts, .two⟩, ⟨.diamonds, .three⟩,
   ⟨.clubs, .four⟩, ⟨.spades, .five⟩]

/-- Hole cards A♠ 2♥ of the wheel scenario. -/
def wheelHole : List Card := [⟨.spades, .ace⟩, ⟨.hearts, .two⟩]

/-- Community cards 3♦ 4♣ 5♠ 6♥ 7♦ of the wheel scenario. -/
def wheelCommunity : List Card :=
  [⟨.diamonds, .three⟩, ⟨.clubs, .four⟩, ⟨.spades, .five⟩,
   ⟨.hearts, .six⟩, ⟨.diamonds, .seven⟩]

/-- A river state with one folded and one live player, both having bet 5:
the minimal showdown input for the folded-chips theorem. -/
def miniFoldedState : GameState :=
  { smallBlind := 1, bigBlind := 2, gamePhase := .river,
    players :=
      [{ playerId := "A", chips := 7, totalBet := 5, status := .folded },
       { playerId := "B", chips := 3, totalBet := 5, status := .active,
         holeCards := [⟨.spades, .ace⟩, ⟨.hearts, .king⟩] }],
    playerOrder := ["A", "B"] }

/-! ## Theorems

### C4 — the `HandEvaluation` comparison operators -/

theorem cmpStep_self (x : Nat) (r : Bool) : cmpStep x x r = r := by
  simp [cmpStep]

theorem kickersLt_self (k : List Nat) : kickersLt k k = false := by
  induction k with
  | nil => rfl
  | cons x xs ih => simp [kickersLt, cmpStep_self, ih]

theorem handEvaluation_eqv_refl (a : HandEvaluation) : a.eqv a = true := by
  simp [HandEvaluation.eqv]

theorem handEvaluation_lt_eq_false_of_eqv {a b : HandEvaluation}
    (h : a.eqv b = true) : a.lt b = false := by
  simp only [HandEvaluation.eqv, Bool.and_eq_true, beq_iff_eq] at h
  obtain ⟨⟨⟨ht, hp⟩, hs⟩, hk⟩ := h
  unfold HandEvaluation.lt
  rw [ht, hp, hs, hk, cmpStep_self, cmpStep_self, cmpStep_self,
    kickersLt_self]

theorem cmpStep_trans {x y z : Nat} {r1 r2 r3 : Bool}
    (h : r1 = true → r2 = true → r3 = true)
    (h1 : cmpStep x y r1 = true) (h2 : cmpStep y z r2 = true) :
    cmpStep x z r3 = true := by
  unfold cmpStep at h1 h2 ⊢
  by_cases hxy : x = y
  · subst hxy
    rw [if_neg fun hc => hc rfl] at h1
    by_cases hxz : x = z
    · subst hxz
      rw [if_neg fun hc => hc rfl] at h2 ⊢
      exact h h1 h2
    · rw [if_pos hxz] at h2 ⊢
      exact h2
  · rw [if_pos hxy] at h1
    have hxy' : x < y := of_decide_eq_true h1
    by_cases hyz : y = z
    · subst hyz
      rw [if_pos hxy]
      exact decide_eq_true hxy'
    · rw [if_pos hyz] at h2
      have hxz' : x < z := lt_trans hxy' (of_decide_eq_true h2)
      rw [if_pos (Nat.ne_of_lt hxz')]
      exact decide_eq_true hxz'

theorem kickersLt_trans : ∀ {a b c : List Nat}, kickersLt a b = true →
    kickersLt b c = true → kickersLt a c = true := by
  intro a
  induction a with
  | nil => intro b c h1 _; simp [kickersLt] at h1
  | cons x xs ih =>
    intro b c h1 h2
    match b, c with
    | [], _ => simp [kickersLt] at h1
    | _ :: _, [] => simp [kickersLt] at h2
    | y :: ys, z :: zs =>
      simp only [kickersLt] at h1 h2 ⊢
      exact cmpStep_trans (fun ha hb => ih ha hb) h1 h2

theorem handEvaluation_lt_trans {a b c : HandEvaluation}
    (h1 : a.lt b = true) (h2 : b.lt c = true) : a.lt c = true := by
  unfold HandEvaluation.lt at h1 h2 ⊢
  exact cmpStep_trans
    (fun p1 p2 => cmpStep_trans
      (fun q1 q2 => cmpStep_trans
        (fun k1 k2 => kickersLt_trans k1 k2) q1 q2) p1 p2) h1 h2

/-- **C4**: the `HandEvaluation` comparison operators as the code defines
them (`__lt__` lexicographic on tier, primary, secondary, kickers;
`__eq__` on the same four fields; `__gt__ = not (lt or eq)`) satisfy the
claim: for every pair exactly one of `<`, `==`, `>` holds, `==` is
reflexive, and `<` is transitive. -/
theorem C4_handEvaluation_strict_total_order :
    (∀ a b : HandEvaluation,
      (a.lt b = true ∧ a.eqv b = false ∧ a.gt b = false) ∨
      (a.lt b = false ∧ a.eqv b = true ∧ a.gt b = false) ∨
      (a.lt b = false ∧ a.eqv b = false ∧ a.gt b = true)) ∧
    (∀ a : HandEvaluation, a.eqv a = true) ∧
    (∀ a b c : HandEvaluation,
      a.lt b = true → b.lt c = true → a.lt c = true) := by
  refine ⟨fun a b => ?_, fun a => handEvaluation_eqv_refl a,
    fun a b c h1 h2 => handEvaluation_lt_trans h1 h2⟩
  cases hlt : a.lt b
  · cases heq : a.eqv b
    · right; right
      exact ⟨rfl, rfl,
        by simp [HandEvaluation.gt, HandEvaluation.le, hlt, heq]⟩
    · right; left
      exact ⟨rfl, rfl,
        by simp [HandEvaluation.gt, HandEvaluation.le, hlt, heq]⟩
  · left
    have heq : a.eqv b = false := by
      cases heqv : a.eqv b
      · rfl
      · rw [handEvaluation_lt_eq_false_of_eqv heqv] at hlt
        cases hlt
    exact ⟨rfl, heq,
      by simp [HandEvaluation.gt, HandEvaluation.le, hlt, heq]⟩

/-- Witness for C4: transitivity applied at three concrete evaluations
(high card below a pair below a straight). -/
theorem C4_witness :
    HandEvaluation.lt { handRank := .highCard, primaryValue := 14 }
      { handRank := .straight, primaryValue := 9 } = true :=
  C4_handEvaluation_strict_total_order.2.2
    { handRank := .highCard, primaryValue := 14 }
    { handRank := .onePair, primaryValue := 5 }
    { handRank := .straight, primaryValue := 9 }
    (by decide) (by decide)

/-! ### C9 — dealing from an exhausted deck -/

/-- **C9 counterexample**: dealing from an empty deck returns the
recoverable value `None` (and `deal_cards` a short list), not a fatal
assertion — refuting the claim that exhaustion is treated as a fatal
invariant violation. -/
theorem C9_counterexample :
    dealCard [] = (none, []) ∧
    (dealCards 3 [⟨Suit.clubs, Rank.two⟩]).1 = [⟨Suit.clubs, Rank.two⟩] := by
  decide

/-- **C9 amended**: `deal_card` pops from the tail of the deck and
returns `None` once the deck is exhausted; `deal_cards(n)` silently skips
the `None` results, returning `min n (length deck)` cards. -/
theorem C9_deal_behavior :
    (∀ (deck : List Card) (c : Card),
      dealCard (deck ++ [c]) = (some c, deck)) ∧
    dealCard [] = ((none : Option Card), ([] : List Card)) ∧
    (∀ (n : Nat) (deck : List Card),
      (dealCards n deck).1.length = min n deck.length) := by
  refine ⟨fun deck c => ?_, rfl, fun n => ?_⟩
  · simp [dealCard, List.getLast?_concat, List.dropLast_concat]
  · induction n with
    | zero => intro deck; simp [dealCards]
    | succ m ih =>
      intro deck
      by_cases hd : deck = []
      · subst hd
        simpa [dealCards, dealCard] using ih []
      · obtain ⟨ys, y, rfl⟩ := deck.eq_nil_or_concat'.resolve_left hd
        simp [dealCards, dealCard, List.getLast?_concat,
          List.dropLast_concat, ih]
        omega

/-! ### C6 — the wheel straight -/

/-- **C6**: A-2-3-4-5 evaluates as a straight with the Ace counted as
rank 1 (primary value 5), strictly below the 6-high straight; and for
hole A♠2♥ with community 3♦4♣5♠6♥7♦ the seven-card evaluation returns
the 7-high straight 3-4-5-6-7, not the wheel. -/
theorem C6_wheel_straight :
    (evaluateFiveCards wheelCards).handRank = HandRank.straight ∧
    (evaluateFiveCards wheelCards).primaryValue = 5 ∧
    (evaluateFiveCards sixHighStraightCards).handRank
      = HandRank.straight ∧
    (evaluateFiveCards sixHighStraightCards).primaryValue = 6 ∧
    (evaluateFiveCards wheelCards).lt
      (evaluateFiveCards sixHighStraightCards) = true ∧
    (evaluateHand wheelHole wheelCommunity).handRank
      = HandRank.straight ∧
    (evaluateHand wheelHole wheelCommunity).primaryValue = 7 ∧
    (evaluateHand wheelHole wheelCommunity).bestCards.map
      (·.rank.numericValue) = [7, 6, 5, 4, 3] := by
  decide

/-! ### C8 — `start_new_hand` with an unfunded player -/

/-- **C8**: with players A (100 chips) and B (0 chips),
`can_start_new_hand` is false, yet `start_new_hand` returns true and
starts the hand anyway — it only checks the number of registered
players, not how many are funded. -/
theorem C8_startNewHand_ignores_chips :
    canStartNewHand brokePlayerGame = false ∧
    (startNewHand createDeck brokePlayerGame).1 = true ∧
    (startNewHand createDeck brokePlayerGame).2.gamePhase
      = GamePhase.preFlop := by
  decide

/-! ### C2 — betting-round closure and the big-blind option -/

theorem foldl_max_init_le (bs : List Int) (b : Int) : b ≤ bs.foldl max b := by
  induction bs generalizing b with
  | nil => exact le_refl b
  | cons c tl ih => exact le_trans (le_max_left b c) (ih (max b c))

theorem le_foldl_max_of_mem (bs : List Int) (b x : Int) (h : x ∈ bs) :
    x ≤ bs.foldl max b := by
  induction bs generalizing b with
  | nil => cases h
  | cons c tl ih =>
    rcases List.mem_cons.mp h with rfl | h2
    · exact le_trans (le_max_right b x) (foldl_max_init_le tl (max b x))
    · exact ih (max b c) h2

theorem currentBet_le_maxCurrentBet (ps : List GamePlayer) (p : GamePlayer)
    (hp : p ∈ ps) : p.currentBet ≤ maxCurrentBet ps := by
  unfold maxCurrentBet
  cases hm : ps.map (·.currentBet) with
  | nil =>
    have := List.mem_map_of_mem (fun q : GamePlayer => q.currentBet) hp
    rw [hm] at this
    cases this
  | cons b bs =>
    have hmem : p.currentBet ∈ b :: bs := by
      rw [← hm]
      exact List.mem_map_of_mem _ hp
    rcases List.mem_cons.mp hmem with heq | h2
    · rw [heq]
      exact foldl_max_init_le bs b
    · exact le_foldl_max_of_mem bs b _ h2

theorem length_filter_le_of_imp {α : Type} (P Q : α → Bool) :
    ∀ (l : List α), (∀ x ∈ l, P x = true → Q x = true) →
    (l.filter P).length ≤ (l.filter Q).length := by
  intro l
  induction l with
  | nil => intro _; exact le_refl 0
  | cons a tl ih =>
    intro h
    have htl := ih fun x hx => h x (List.mem_cons_of_mem _ hx)
    rw [List.filter_cons, List.filter_cons]
    cases hP : P a
    · cases hQ : Q a
      · simpa using htl
      · simp only [Bool.false_eq_true, if_false, if_true, List.length_cons]
        omega
    · have hQ : Q a = true := h a (List.mem_cons_self _ _) hP
      simp only [hQ, if_true, List.length_cons]
      omega

theorem length_filter_lt_of_witness {α : Type} (P Q : α → Bool) :
    ∀ (l : List α), (∀ y ∈ l, P y = true → Q y = true) →
    ∀ x, x ∈ l → Q x = true → P x = false →
    (l.filter P).length < (l.filter Q).length := by
  intro l
  induction l with
  | nil => intro _ x hx; cases hx
  | cons a tl ih =>
    intro h x hx hQ hP
    have htlimp : ∀ y ∈ tl, P y = true → Q y = true :=
      fun y hy => h y (List.mem_cons_of_mem _ hy)
    rw [List.filter_cons, List.filter_cons]
    rcases List.mem_cons.mp hx with rfl | hx2
    · rw [hP, hQ]
      simp only [Bool.false_eq_true, if_false, if_true, List.length_cons]
      have := length_filter_le_of_imp P Q tl htlimp
      omega
    · have htl := ih htlimp x hx2 hQ hP
      cases hPa : P a
      · simp only [Bool.false_eq_true, if_false]
        cases hQa : Q a
        · simp only [Bool.false_eq_true, if_false]
          exact htl
        · simp only [if_true, List.length_cons]
          omega
      · have hQa : Q a = true := h a (List.mem_cons_self _ _) hPa
        simp only [hQa, if_true, List.length_cons]
        omega

theorem status_ne_allIn_of_canAct {p : GamePlayer} (h : p.canAct = true) :
    (p.status != PlayerStatus.allIn) = true := by
  unfold GamePlayer.canAct at h
  rw [Bool.and_eq_true, Bool.or_eq_true] at h
  rcases h.1 with h2 | h2
  · have h3 : p.status = .active := by rwa [beq_iff_eq] at h2
    rw [h3]
    decide
  · have h3 : p.status = .waiting := by rwa [beq_iff_eq] at h2
    rw [h3]
    decide

/-- The three `unmatched_players` passes of `_is_betting_round_complete`
produce an empty list exactly when every can-act in-hand player has
matched the maximal bet and, at max bet 0, every can-act non-blind
player has acted. -/
theorem unmatched_passes_empty_iff (inHand : List GamePlayer)
    (maxBet : Int) (lastRaise : Option String)
    (hmaxle : ∀ p ∈ inHand, p.currentBet ≤ maxBet) :
    (((inHand.filter fun p =>
        p.status != PlayerStatus.allIn && p.canAct &&
          decide (p.currentBet < maxBet)).map (·.playerId) ++
      (if maxBet == (0 : Int) && decide ((inHand.filter fun p =>
            p.status != PlayerStatus.allIn && p.canAct &&
              (!p.lastAction.isNone || p.isSmallBlind || p.isBigBlind)).length
          < (inHand.filter (·.canAct)).length) then
        (inHand.filter fun p =>
          p.canAct && p.lastAction.isNone &&
            !(p.isSmallBlind || p.isBigBlind)).map (·.playerId)
      else []) ++
      (match lastRaise with
       | some raiserId =>
         if decide ((0 : Int) < maxBet) then
           (inHand.filter fun p =>
             p.canAct && p.playerId != raiserId &&
               decide (p.currentBet < maxBet)).map (·.playerId)
         else []
       | none => [])).isEmpty = true)
    ↔ ((∀ p ∈ inHand, p.canAct = true → p.currentBet = maxBet) ∧
       (maxBet = 0 → ∀ p ∈ inHand, p.canAct = true →
         p.lastAction ≠ none ∨ p.isSmallBlind = true ∨ p.isBigBlind = true)) := by
  have hc1iff : ((inHand.filter fun p =>
      p.status != PlayerStatus.allIn && p.canAct &&
        decide (p.currentBet < maxBet)).map (·.playerId)) = []
      ↔ (∀ p ∈ inHand, p.canAct = true → p.currentBet = maxBet) := by
    rw [List.map_eq_nil_iff, List.filter_eq_nil_iff]
    constructor
    · intro he p hp hact
      have hnp := he p hp
      have hle := hmaxle p hp
      by_contra hcne
      apply hnp
      show (p.status != PlayerStatus.allIn && p.canAct &&
        decide (p.currentBet < maxBet)) = true
      rw [status_ne_allIn_of_canAct hact, hact]
      simp only [Bool.true_and, decide_eq_true_eq]
      exact lt_of_le_of_ne hle hcne
    · intro hc p hp hpred
      simp only [Bool.and_eq_true, decide_eq_true_eq] at hpred
      have := hc p hp hpred.1.2
      omega
  have hu3 : ∀ (u3 : List String),
      (u3 = (match lastRaise with
       | some raiserId =>
         if decide ((0 : Int) < maxBet) then
           (inHand.filter fun p =>
             p.canAct && p.playerId != raiserId &&
               decide (p.currentBet < maxBet)).map (·.playerId)
         else []
       | none => [])) →
      (∀ p ∈ inHand, p.canAct = true → p.currentBet = maxBet) →
      u3 = [] := by
    intro u3 hdef hc
    rw [hdef]
    cases lastRaise with
    | none => rfl
    | some raiserId =>
      cases hdm : decide ((0 : Int) < maxBet) with
      | false => simp only [Bool.false_eq_true, if_false]
      | true =>
        simp only [if_true]
        rw [List.map_eq_nil_iff, List.filter_eq_nil_iff]
        intro p hp hpred
        simp only [Bool.and_eq_true, decide_eq_true_eq] at hpred
        have := hc p hp hpred.1.1
        omega
  cases hG : (maxBet == (0 : Int) && decide ((inHand.filter fun p =>
        p.status != PlayerStatus.allIn && p.canAct &&
          (!p.lastAction.isNone || p.isSmallBlind || p.isBigBlind)).length
      < (inHand.filter (·.canAct)).length)) with
  | false =>
    simp only [Bool.false_eq_true, if_false, List.append_nil]
    have hc2 : maxBet = 0 → ∀ p ∈ inHand, p.canAct = true →
        p.lastAction ≠ none ∨ p.isSmallBlind = true ∨
          p.isBigBlind = true := by
      intro hm0 p hp hact
      by_contra hcon
      rw [not_or, not_or] at hcon
      obtain ⟨hla, hsb, hbb⟩ := hcon
      have hla2 : p.lastAction = none := not_ne_iff.mp hla
      rw [Bool.not_eq_true] at hsb hbb
      have hlt := length_filter_lt_of_witness
        (fun p => p.status != PlayerStatus.allIn && p.canAct &&
          (!p.lastAction.isNone || p.isSmallBlind || p.isBigBlind))
        (fun p => p.canAct) inHand
        (fun y _ hy => by
          simp only [Bool.and_eq_true] at hy
          exact hy.1.2)
        p hp hact
        (by
          show (p.status != PlayerStatus.allIn && p.canAct &&
            (!p.lastAction.isNone || p.isSmallBlind || p.isBigBlind))
              = false
          rw [hla2, hsb, hbb, status_ne_allIn_of_canAct hact, hact]
          rfl)
      rw [hm0] at hG
      simp only [beq_self_eq_true, Bool.true_and,
        decide_eq_false_iff_not] at hG
      exact hG hlt
    constructor
    · intro hemp
      rw [List.isEmpty_iff, List.append_eq_nil] at hemp
      exact ⟨hc1iff.mp hemp.1, hc2⟩
    · rintro ⟨hc1, _⟩
      rw [List.isEmpty_iff, List.append_eq_nil]
      exact ⟨hc1iff.mpr hc1, hu3 _ rfl hc1⟩
  | true =>
    rw [if_pos rfl]
    rw [Bool.and_eq_true] at hG
    have hm0 : maxBet = 0 := by
      have hG1 := hG.1
      rwa [beq_iff_eq] at hG1
    have hc2iff : ((inHand.filter fun p =>
        p.canAct && p.lastAction.isNone &&
          !(p.isSmallBlind || p.isBigBlind)).map (·.playerId)) = []
        ↔ (∀ p ∈ inHand, p.canAct = true →
            p.lastAction ≠ none ∨ p.isSmallBlind = true ∨
              p.isBigBlind = true) := by
      rw [List.map_eq_nil_iff, List.filter_eq_nil_iff]
      constructor
      · intro he p hp hact
        by_contra hcon
        rw [not_or, not_or] at hcon
        obtain ⟨hla, hsb, hbb⟩ := hcon
        have hla2 : p.lastAction = none := not_ne_iff.mp hla
        rw [Bool.not_eq_true] at hsb hbb
        apply he p hp
        show (p.canAct && p.lastAction.isNone &&
          !(p.isSmallBlind || p.isBigBlind)) = true
        rw [hact, hla2, hsb, hbb]
        rfl
      · intro hc p hp hpred
        simp only [Bool.and_eq_true] at hpred
        obtain ⟨⟨hact, hisn⟩, hnb⟩ := hpred
        rw [Bool.not_eq_true'] at hnb
        rw [Bool.or_eq_false_iff] at hnb
        rcases hc p hp hact with hcase | hcase | hcase
        · exact hcase (Option.isNone_iff_eq_none.mp hisn)
        · rw [hcase] at hnb
          exact Bool.noConfusion hnb.1
        · rw [hcase] at hnb
          exact Bool.noConfusion hnb.2
    constructor
    · intro hemp
      rw [List.isEmpty_iff, List.append_eq_nil, List.append_eq_nil] at hemp
      exact ⟨hc1iff.mp hemp.1.1, fun _ => hc2iff.mp hemp.1.2⟩
    · rintro ⟨hc1, hc2⟩
      rw [List.isEmpty_iff, List.append_eq_nil, List.append_eq_nil]
      exact ⟨⟨hc1iff.mpr hc1, hc2iff.mpr (hc2 hm0)⟩, hu3 _ rfl hc1⟩

/-- `_is_betting_round_complete` decides exactly the closure rule of the
amended claim, for every game state. -/
theorem bettingRoundComplete_iff (s : GameState) :
    isBettingRoundComplete s = true ↔ closureRule s := by
  unfold isBettingRoundComplete closureRule
  dsimp only
  by_cases h1 : (s.players.filter (·.isInHand)).length ≤ 1
  · rw [if_pos h1]
    exact iff_of_true rfl (Or.inl h1)
  · rw [if_neg h1]
    by_cases h2 : ((s.players.filter (·.isInHand)).filter
        (·.canAct)).isEmpty = true
    · rw [if_pos h2]
      apply iff_of_true rfl
      right; left
      intro p hp
      rw [List.isEmpty_iff] at h2
      by_contra hc
      rw [Bool.not_eq_false] at hc
      have hmem : p ∈ (s.players.filter (·.isInHand)).filter (·.canAct) :=
        List.mem_filter.mpr ⟨hp, hc⟩
      rw [h2] at hmem
      cases hmem
    · rw [if_neg h2]
      refine Iff.trans (unmatched_passes_empty_iff
        (s.players.filter (·.isInHand))
        (maxCurrentBet (s.players.filter (·.isInHand)))
        s.lastRaisePlayerId
        (fun p hp => currentBet_le_maxCurrentBet _ p hp)) ?_
      constructor
      · intro hc
        exact Or.inr (Or.inr hc)
      · intro h
        rcases h with ha | hb | hc
        · exact absurd ha h1
        · exfalso
          apply h2
          rw [List.isEmpty_iff, List.filter_eq_nil_iff]
          intro q hq
          show ¬(q.canAct = true)
          rw [hb q hq]
          exact fun hcc => Bool.noConfusion hcc
        · exact hc

/-- **C2 counterexample**: in the heads-up 1/2 hand the big blind "bob"
has not acted, yet the small blind's call alone already moves the phase
to Flop — refuting "the phase stays PreFlop until the big blind
checks". -/
theorem C2_counterexample :
    ((headsUpHand.getPlayer "bob").map (·.lastAction)) = some none ∧
    headsUpAfterCall.1 = true ∧
    headsUpAfterCall.2.gamePhase = GamePhase.flop := by
  decide

/-- **C2 amended**: after any accepted action, the betting round is
closed iff the `closureRule` holds — at most one player in the hand, or
nobody can act, or every can-act in-hand player has matched the highest
current bet and, at max bet 0, every can-act non-blind player has acted
(blinds count as having acted).  Consequently the small blind's call
closes heads-up pre-flop at once (`_is_betting_round_complete` is
already true with the big blind's `last_action` still `None`), and the
accepted call advances the hand to Flop with exactly 3 community cards,
pot 4, and every current bet reset to 0. -/
theorem C2_amended_closure :
    (∀ s : GameState, isBettingRoundComplete s = true ↔ closureRule s) ∧
    isBettingRoundComplete headsUpPostCall = true ∧
    ((headsUpPostCall.getPlayer "bob").map (·.lastAction)) = some none ∧
    headsUpAfterCall.1 = true ∧
    headsUpAfterCall.2.gamePhase = GamePhase.flop ∧
    headsUpAfterCall.2.communityCards.length = 3 ∧
    headsUpAfterCall.2.mainPot = 4 ∧
    headsUpAfterCall.2.currentBet = 0 ∧
    (∀ p ∈ headsUpAfterCall.2.players, p.currentBet = 0) :=
  ⟨bettingRoundComplete_iff, by decide⟩

/-- Witness for C2: the closure rule applied at the concrete post-call
heads-up state. -/
theorem C2_witness : isBettingRoundComplete headsUpPostCall = true :=
  (C2_amended_closure.1 headsUpPostCall).mpr (by unfold closureRule; decide)

/-! ### C7 — minimum raise -/

/-- **C7 counterexample**: at `reRaiseState` the last raise's increment
is 10 (table bet went 2 → 12) with big blind 2; B (99 chips, 1 posted)
is to act, and the code accepts a further raise of 2 — which the
claim's minimum-raise rule (≥ the last raise's increment, here 10)
forbids. -/
theorem C7_counterexample :
    reRaiseState.currentBet = 12 ∧ reRaiseState.bigBlind = 2 ∧
    reRaiseState.currentPlayerId = some "B" ∧
    ((reRaiseState.getPlayer "B").map (·.chips)) = some 99 ∧
    ((reRaiseState.getPlayer "B").map (·.currentBet)) = some 1 ∧
    isValidAction reRaiseState "B" PlayerAction.raise 2 = true ∧
    claimRaiseLegal 99 11 2 2 10 true = false := by
  decide

/-- **C7 amended**: the minimum raise is always the big blind (the
implementation never tracks a raise increment), so once it is the
registered player's turn, they can act, and the phase is a betting
phase, a raise is accepted exactly when the amount is positive, the
stack is positive, the stack covers call gap plus raise, and the amount
is at least the big blind. -/
theorem C7_raise_acceptance (s : GameState) (pid : String) (amount : Int)
    (p : GamePlayer) (hget : s.getPlayer pid = some p)
    (hcur : s.currentPlayerId = some pid) (hact : p.canAct = true)
    (hw : s.gamePhase ≠ GamePhase.waiting)
    (hg : s.gamePhase ≠ GamePhase.gameOver) :
    isValidAction s pid PlayerAction.raise amount = true ↔
      (0 < p.chips ∧ 0 < amount ∧
       s.currentBet - p.currentBet + amount ≤ p.chips ∧
       s.bigBlind ≤ amount) := by
  unfold isValidAction
  rw [hget, hcur]
  have hpf : (s.gamePhase == GamePhase.waiting
      || s.gamePhase == GamePhase.gameOver) = false := by
    simp [beq_iff_eq, hw, hg]
  simp only [bne_self_eq_false, Bool.false_eq_true, if_false, hact,
    Bool.not_true, hpf, ite_self]
  split_ifs with h1 h2
  · simp only [Bool.false_eq_true, false_iff]
    simp only [Bool.or_eq_true, decide_eq_true_eq] at h1
    omega
  · simp only [Bool.false_eq_true, false_iff]
    simp only [decide_eq_true_eq] at h2
    omega
  · simp only [Bool.or_eq_true, decide_eq_true_eq] at h1 h2
    push_neg at h1 h2
    simp only [decide_eq_true_eq]
    constructor
    · intro h3; exact ⟨by omega, by omega, by omega, h3⟩
    · intro h3; exact h3.2.2.2

/-- Witness for C7: the acceptance characterization applied at
`reRaiseState` with B raising 5. -/
theorem C7_witness :
    isValidAction reRaiseState "B" PlayerAction.raise 5 = true :=
  (C7_raise_acceptance reRaiseState "B" 5
    ((reRaiseState.getPlayer "B").getD default)
    (by decide) (by decide) (by decide) (by decide) (by decide)).mpr
    (by decide)

/-! ### C10 — fewer than five cards -/

theorem sortCardsDesc_perm (l : List Card) : (sortCardsDesc l).Perm l :=
  List.perm_insertionSort cardGe l

theorem sortCardsDesc_sorted (l : List Card) :
    List.Sorted cardGe (sortCardsDesc l) :=
  List.sorted_insertionSort cardGe l

/-- **C10**: on a non-empty input of fewer than five cards,
`evaluate_hand` returns a high-card evaluation whose `best_cards` are the
input as given and whose primary value followed by the kickers lists all
the input ranks in descending order (so the primary value is the highest
rank present and the kickers are the remaining ranks, descending). -/
theorem C10_short_input_high_card (hole community : List Card)
    (hne : hole ++ community ≠ [])
    (hlen : (hole ++ community).length < 5) :
    (evaluateHand hole community).handRank = HandRank.highCard ∧
    (evaluateHand hole community).bestCards = hole ++ community ∧
    ((evaluateHand hole community).primaryValue ::
        (evaluateHand hole community).kickers).Perm
      ((hole ++ community).map (·.rank.numericValue)) ∧
    ((evaluateHand hole community).primaryValue ::
        (evaluateHand hole community).kickers).Sorted (· ≥ ·) := by
  have hperm := sortCardsDesc_perm (hole ++ community)
  have hsorted := sortCardsDesc_sorted (hole ++ community)
  have hne2 : sortCardsDesc (hole ++ community) ≠ [] := by
    intro h
    have hp2 : (hole ++ community).Perm [] := by
      rw [← h]; exact hperm.symm
    exact hne hp2.eq_nil
  obtain ⟨c, cs, heq⟩ := List.exists_cons_of_ne_nil hne2
  have heval : evaluateHand hole community =
      { handRank := .highCard,
        primaryValue :=
          (sortCardsDesc (hole ++ community)).headI.rank.numericValue,
        kickers := (sortCardsDesc (hole ++ community)).tail.map
          (·.rank.numericValue),
        bestCards := hole ++ community } := by
    unfold evaluateHand
    rw [if_pos hlen]
  rw [heval]
  refine ⟨rfl, rfl, ?_, ?_⟩
  · rw [heq]
    simp only [List.headI_cons, List.tail_cons]
    show ((c :: cs).map (·.rank.numericValue)).Perm
      ((hole ++ community).map (·.rank.numericValue))
    rw [← heq]
    exact hperm.map _
  · rw [heq]
    simp only [List.headI_cons, List.tail_cons]
    have hp : List.Pairwise cardGe (c :: cs) := heq ▸ hsorted
    show ((c :: cs).map (·.rank.numericValue)).Pairwise (· ≥ ·)
    exact hp.map _ (fun a b hab => hab)

/-- Witness for C10: the short-input behaviour at the three cards
A♠ K♥ | K♦. -/
theorem C10_witness :
    (evaluateHand [⟨Suit.spades, Rank.ace⟩, ⟨Suit.hearts, Rank.king⟩]
        [⟨Suit.diamonds, Rank.king⟩]).handRank = HandRank.highCard ∧
    (evaluateHand [⟨Suit.spades, Rank.ace⟩, ⟨Suit.hearts, Rank.king⟩]
        [⟨Suit.diamonds, Rank.king⟩]).bestCards
      = ([⟨Suit.spades, Rank.ace⟩, ⟨Suit.hearts, Rank.king⟩]
        ++ [⟨Suit.diamonds, Rank.king⟩] : List Card) ∧
    ((evaluateHand [⟨Suit.spades, Rank.ace⟩, ⟨Suit.hearts, Rank.king⟩]
        [⟨Suit.diamonds, Rank.king⟩]).primaryValue ::
      (evaluateHand [⟨Suit.spades, Rank.ace⟩, ⟨Suit.hearts, Rank.king⟩]
        [⟨Suit.diamonds, Rank.king⟩]).kickers).Perm
      ((([⟨Suit.spades, Rank.ace⟩, ⟨Suit.hearts, Rank.king⟩]
        ++ [⟨Suit.diamonds, Rank.king⟩] : List Card)).map
          (·.rank.numericValue)) ∧
    ((evaluateHand [⟨Suit.spades, Rank.ace⟩, ⟨Suit.hearts, Rank.king⟩]
        [⟨Suit.diamonds, Rank.king⟩]).primaryValue ::
      (evaluateHand [⟨Suit.spades, Rank.ace⟩, ⟨Suit.hearts, Rank.king⟩]
        [⟨Suit.diamonds, Rank.king⟩]).kickers).Sorted (· ≥ ·) :=
  C10_short_input_high_card
    [⟨Suit.spades, Rank.ace⟩, ⟨Suit.hearts, Rank.king⟩]
    [⟨Suit.diamonds, Rank.king⟩] (by decide) (by decide)

/-! ### C3 — side-pot computation -/

theorem sortBetsAsc_perm (l : List (String × Int)) :
    (sortBetsAsc l).Perm l :=
  List.perm_insertionSort betLe l

theorem sortBetsAsc_sorted (l : List (String × Int)) :
    List.Pairwise betLe (sortBetsAsc l) :=
  List.sorted_insertionSort betLe l

theorem buildSidePots_amount_sum :
    ∀ (l : List (String × Int)) (prev : Int), List.Pairwise betLe l →
    (∀ x ∈ l, prev ≤ x.2) →
    ((buildSidePots prev l).map (·.amount)).sum
      = (l.map (·.2)).sum - prev * (l.length : Int) := by
  intro l
  induction l with
  | nil => intro prev _ _; simp [buildSidePots]
  | cons hd tl ih =>
    intro prev hs hp
    obtain ⟨pid, b⟩ := hd
    rw [List.pairwise_cons] at hs
    by_cases hbp : prev < b
    · rw [buildSidePots, if_pos hbp]
      have htl := ih b hs.2 fun x hx => hs.1 x hx
      simp only [List.map_cons, List.sum_cons, htl, List.length_cons]
      push_cast
      ring
    · have hbe : b = prev :=
        le_antisymm (not_lt.mp hbp) (hp (pid, b) (List.mem_cons_self _ _))
      rw [buildSidePots, if_neg hbp]
      have htl := ih prev hs.2 fun x hx => hp x (List.mem_cons_of_mem _ hx)
      simp only [htl, List.map_cons, List.sum_cons, List.length_cons, hbe]
      push_cast
      ring

theorem distinctLevels_subset :
    ∀ {l : List Int} {x : Int}, x ∈ distinctLevels l → x ∈ l := by
  intro l
  induction l with
  | nil => intro x h; simp [distinctLevels] at h
  | cons a tl ih =>
    intro x h
    cases tl with
    | nil => simpa [distinctLevels] using h
    | cons b tl' =>
      rw [distinctLevels] at h
      by_cases hab : a = b
      · rw [if_pos hab] at h
        exact List.mem_cons_of_mem _ (ih h)
      · rw [if_neg hab] at h
        rcases List.mem_cons.mp h with h | h
        · exact h ▸ List.mem_cons_self _ _
        · exact List.mem_cons_of_mem _ (ih h)

theorem distinctLevels_cons_eq :
    ∀ (w : List Int) (v : Int), List.Pairwise (· ≤ ·) (v :: w) →
    distinctLevels (v :: w)
      = v :: (distinctLevels w).filter (fun x => decide (v < x)) := by
  intro w
  induction w with
  | nil => intro v _; simp [distinctLevels]
  | cons y w' ih =>
    intro v hs
    rw [List.pairwise_cons] at hs
    have hvy : v ≤ y := hs.1 y (List.mem_cons_self _ _)
    rw [distinctLevels]
    by_cases heq : v = y
    · rw [if_pos heq]
      rw [ih y hs.2]
      subst heq
      congr 1
      rw [List.filter_cons]
      have hlt : decide (v < v) = false := by simp
      rw [hlt]
      simp only [Bool.false_eq_true, if_false]
      rw [List.filter_filter]
      apply (List.filter_congr ?_).symm
      intro a _
      simp [Bool.and_self]
    · rw [if_neg heq]
      congr 1
      symm
      apply List.filter_eq_self.mpr
      intro a ha
      have hay : a ∈ y :: w' := distinctLevels_subset ha
      have hya : y ≤ a := by
        rcases List.mem_cons.mp hay with h | h
        · exact h ▸ le_refl y
        · exact List.rel_of_pairwise_cons hs.2 h
      have : v < a := lt_of_lt_of_le (lt_of_le_of_ne hvy heq) hya
      exact decide_eq_true this

theorem claimPots_cons_skip (hd : String × Int) (tl : List (String × Int)) :
    ∀ (L : List Int) (prevLv : Int), (∀ lv ∈ L, hd.2 < lv) →
    claimPots (hd :: tl) prevLv L = claimPots tl prevLv L := by
  intro L
  induction L with
  | nil => intro _ _; rfl
  | cons lv rest ih =>
    intro prevLv hL
    rw [claimPots, claimPots]
    have hhd : decide (lv ≤ hd.2) = false := by
      simp only [decide_eq_false_iff_not, not_le]
      exact hL lv (List.mem_cons_self _ _)
    simp only [List.filter_cons, hhd, Bool.false_eq_true, if_false]
    congr 1
    exact ih lv fun x hx => hL x (List.mem_cons_of_mem _ hx)

theorem buildSidePots_eq_claimPots :
    ∀ (l : List (String × Int)) (prev : Int), List.Pairwise betLe l →
    (∀ x ∈ l, prev ≤ x.2) →
    buildSidePots prev l
      = claimPots l prev
          ((distinctLevels (l.map (·.2))).filter
            (fun v => decide (prev < v))) := by
  intro l
  induction l with
  | nil => intro prev _ _; rfl
  | cons hd tl ih =>
    intro prev hs hp
    obtain ⟨pid, b⟩ := hd
    rw [List.pairwise_cons] at hs
    have hsv : List.Pairwise (· ≤ ·) (b :: tl.map (·.2)) := by
      rw [List.pairwise_cons]
      constructor
      · intro v hv
        obtain ⟨x, hx, rfl⟩ := List.mem_map.mp hv
        exact hs.1 x hx
      · exact hs.2.map _ fun x y hxy => hxy
    have hmap : ((pid, b) :: tl).map (·.2) = b :: tl.map (·.2) := rfl
    rw [hmap, distinctLevels_cons_eq _ _ hsv]
    by_cases hbp : prev < b
    · have hb : decide (prev < b) = true := decide_eq_true hbp
      simp only [List.filter_cons, hb, eq_self_iff_true, if_true]
      have hff : (List.filter (fun v => decide (prev < v))
          ((distinctLevels (tl.map (·.2))).filter
            (fun x => decide (b < x))))
          = (distinctLevels (tl.map (·.2))).filter
            (fun x => decide (b < x)) := by
        apply List.filter_eq_self.mpr
        intro a ha
        have := of_decide_eq_true (List.mem_filter.mp ha).2
        exact decide_eq_true (lt_trans hbp this)
      rw [hff, claimPots, buildSidePots, if_pos hbp]
      have hfl : List.filter (fun x => decide (b ≤ x.2)) ((pid, b) :: tl)
          = (pid, b) :: tl := by
        apply List.filter_eq_self.mpr
        intro x hx
        rcases List.mem_cons.mp hx with h | h
        · exact decide_eq_true (h ▸ le_refl b)
        · exact decide_eq_true (hs.1 x h)
      rw [hfl]
      have htail : buildSidePots b tl = claimPots ((pid, b) :: tl) b
          ((distinctLevels (tl.map (·.2))).filter
            (fun x => decide (b < x))) := by
        rw [ih b hs.2 fun x hx => hs.1 x hx]
        symm
        apply claimPots_cons_skip
        intro lv hlv
        exact of_decide_eq_true (List.mem_filter.mp hlv).2
      have hhead : ((tl.length : Int) + 1)
          = ((((pid, b) :: tl).length : Int)) := by
        rw [List.length_cons]
        push_cast
        ring
      rw [htail, hhead, List.map_cons]
    · have hbe : b = prev :=
        le_antisymm (not_lt.mp hbp) (hp (pid, b) (List.mem_cons_self _ _))
      have hb : decide (prev < b) = false := by
        simp only [decide_eq_false_iff_not]
        exact hbp
      simp only [List.filter_cons, hb, Bool.false_eq_true, if_false]
      have hff : (List.filter (fun v => decide (prev < v))
          ((distinctLevels (tl.map (·.2))).filter
            (fun x => decide (b < x))))
          = (distinctLevels (tl.map (·.2))).filter
            (fun x => decide (b < x)) := by
        apply List.filter_eq_self.mpr
        intro a ha
        have hba := of_decide_eq_true (List.mem_filter.mp ha).2
        exact decide_eq_true (hbe ▸ hba)
      rw [hff, buildSidePots, if_neg hbp]
      rw [ih prev hs.2 fun x hx => hp x (List.mem_cons_of_mem _ hx)]
      have hfe : (distinctLevels (tl.map (·.2))).filter
            (fun v => decide (prev < v))
          = (distinctLevels (tl.map (·.2))).filter
            (fun x => decide (b < x)) := by
        rw [hbe]
      rw [hfe]
      symm
      apply claimPots_cons_skip
      intro lv hlv
      exact of_decide_eq_true (List.mem_filter.mp hlv).2

theorem sum_filter_pos_totalBet (ps : List GamePlayer)
    (h0 : ∀ p ∈ ps, 0 ≤ p.totalBet) :
    ((ps.filter fun p => decide (0 < p.totalBet)).map (·.totalBet)).sum
      = (ps.map (·.totalBet)).sum := by
  induction ps with
  | nil => rfl
  | cons p tl ih =>
    have h0tl : ∀ q ∈ tl, 0 ≤ q.totalBet :=
      fun q hq => h0 q (List.mem_cons_of_mem _ hq)
    by_cases hpos : 0 < p.totalBet
    · simp only [List.filter_cons, decide_eq_true hpos, eq_self_iff_true,
        if_true, List.map_cons, List.sum_cons, ih h0tl]
    · have hz : p.totalBet = 0 :=
        le_antisymm (not_lt.mp hpos) (h0 p (List.mem_cons_self _ _))
      have hd : decide (0 < p.totalBet) = false := by
        simp only [decide_eq_false_iff_not]; exact hpos
      rw [List.filter_cons, hd]
      simp only [Bool.false_eq_true, if_false, List.map_cons,
        List.sum_cons, ih h0tl, hz, zero_add]

/-- **C3**: `_calculate_side_pots` computes exactly the claim's layered
pots — sort the positive contributions ascending, one pot per distinct
level `aᵢ` of amount `(aᵢ − aᵢ₋₁) × |{players with total_bet ≥ aᵢ}|`,
eligible exactly those players (the filtered sorted bet list, whose
length equals the number of players with `total_bet ≥ aᵢ`) — and the
produced pot amounts sum to the players' total bets. -/
theorem C3_side_pots (s : GameState)
    (h0 : ∀ p ∈ s.players, 0 ≤ p.totalBet) (hsp : s.sidePots = []) :
    (calculateSidePots s).sidePots = sidePotsClaim (betsOf s) ∧
    (∀ lv : Int, 0 < lv →
      ((sortBetsAsc (betsOf s)).filter
        (fun x => decide (lv ≤ x.2))).length
        = (s.players.filter fun p => decide (lv ≤ p.totalBet)).length) ∧
    ((calculateSidePots s).sidePots.map (·.amount)).sum
      = (s.players.map (·.totalBet)).sum := by
  have hpos : ∀ x ∈ betsOf s, 0 < x.2 := by
    intro x hx
    obtain ⟨p, hp, rfl⟩ := List.mem_map.mp hx
    exact of_decide_eq_true (List.mem_filter.mp hp).2
  have hposs : ∀ x ∈ sortBetsAsc (betsOf s), 0 < x.2 :=
    fun x hx => hpos x ((sortBetsAsc_perm _).mem_iff.mp hx)
  have hcount : ∀ lv : Int, 0 < lv →
      ((sortBetsAsc (betsOf s)).filter
        (fun x => decide (lv ≤ x.2))).length
        = (s.players.filter fun p => decide (lv ≤ p.totalBet)).length := by
    intro lv hlv
    rw [((sortBetsAsc_perm (betsOf s)).filter
      (fun x => decide (lv ≤ x.2))).length_eq]
    unfold betsOf
    rw [List.filter_map, List.length_map, List.filter_filter]
    congr 1
    apply List.filter_congr
    intro p _
    by_cases h : lv ≤ p.totalBet
    · have h2 : (0 : Int) < p.totalBet := lt_of_lt_of_le hlv h
      simp [h, h2, Function.comp]
    · simp [h, Function.comp]
  refine ⟨?_, hcount, ?_⟩
  · by_cases hb : (betsOf s).isEmpty
    · have hbe : betsOf s = [] := by
        cases hh : betsOf s
        · rfl
        · rw [hh] at hb; cases hb
      unfold calculateSidePots
      simp only [hbe, List.isEmpty_nil, if_true, hsp, sidePotsClaim,
        sortBetsAsc, List.insertionSort, List.map_nil, distinctLevels,
        claimPots]
    · have hbb : (betsOf s).isEmpty = false := by
        cases hh : (betsOf s).isEmpty
        · rfl
        · exact absurd hh hb
      unfold calculateSidePots
      simp only [hbb, Bool.false_eq_true, if_false]
      rw [buildSidePots_eq_claimPots _ 0 (sortBetsAsc_sorted _)
        (fun x hx => le_of_lt (hposs x hx))]
      unfold sidePotsClaim
      congr 1
      apply List.filter_eq_self.mpr
      intro v hv
      have hvm : v ∈ (sortBetsAsc (betsOf s)).map (·.2) :=
        distinctLevels_subset hv
      obtain ⟨x, hx, rfl⟩ := List.mem_map.mp hvm
      exact decide_eq_true (hposs x hx)
  · by_cases hb : (betsOf s).isEmpty
    · have hbe : betsOf s = [] := by
        cases hh : betsOf s
        · rfl
        · rw [hh] at hb; cases hb
      unfold calculateSidePots
      simp only [hbe, List.isEmpty_nil, if_true, hsp, List.map_nil,
        List.sum_nil]
      symm
      apply List.sum_eq_zero
      intro x hx
      obtain ⟨p, hp, rfl⟩ := List.mem_map.mp hx
      by_contra hne
      have hppos : 0 < p.totalBet :=
        lt_of_le_of_ne (h0 p hp) (Ne.symm hne)
      have : (p.playerId, p.totalBet) ∈ betsOf s := by
        unfold betsOf
        exact List.mem_map.mpr ⟨p,
          List.mem_filter.mpr ⟨hp, decide_eq_true hppos⟩, rfl⟩
      rw [hbe] at this
      cases this
    · have hbb : (betsOf s).isEmpty = false := by
        cases hh : (betsOf s).isEmpty
        · rfl
        · exact absurd hh hb
      unfold calculateSidePots
      simp only [hbb, Bool.false_eq_true, if_false]
      rw [buildSidePots_amount_sum _ 0 (sortBetsAsc_sorted _)
        (fun x hx => le_of_lt (hposs x hx))]
      rw [((sortBetsAsc_perm (betsOf s)).map (·.2)).sum_eq]
      unfold betsOf
      rw [List.map_map]
      simp only [zero_mul, sub_zero]
      have hcomp : ((fun x : String × Int => x.2) ∘
          fun p : GamePlayer => (p.playerId, p.totalBet))
          = fun p : GamePlayer => p.totalBet := rfl
      rw [hcomp]
      exact sum_filter_pos_totalBet s.players h0

/-- Witness for C3: the side-pot characterization applied at the
three-player all-in state (total bets 50/30/20). -/
theorem C3_witness :
    ((calculateSidePots allInHandStep3.2).sidePots.map (·.amount)).sum
      = (allInHandStep3.2.players.map (·.totalBet)).sum :=
  (C3_side_pots allInHandStep3.2 (by decide) (by decide)).2.2

/-! ### C5 — folded players at showdown -/

theorem foldl_preserves {σ α : Type} (P : σ → Prop) (g : σ → α → σ)
    (l : List α) (st : σ)
    (h : ∀ st' a, a ∈ l → P st' → P (g st' a)) (h0 : P st) :
    P (l.foldl g st) := by
  induction l generalizing st with
  | nil => exact h0
  | cons a tl ih =>
    exact ih (g st a)
      (fun st' x hx hp => h st' x (List.mem_cons_of_mem _ hx) hp)
      (h st a (List.mem_cons_self _ _) h0)

theorem updatePlayer_getElem (s : GameState) (pid : String)
    (f : GamePlayer → GamePlayer) (k : Nat) :
    (s.updatePlayer pid f).players[k]?
      = (s.players[k]?).map fun p =>
          if p.playerId == pid then f p else p :=
  List.getElem?_map _ s.players k

theorem updatePlayer_getElem_other (s : GameState) (pid : String)
    (f : GamePlayer → GamePlayer) (k : Nat) (p : GamePlayer)
    (hk : s.players[k]? = some p) (hne : p.playerId ≠ pid) :
    (s.updatePlayer pid f).players[k]? = some p := by
  rw [updatePlayer_getElem, hk]
  show some (if p.playerId == pid then f p else p) = some p
  have hcond : ¬((p.playerId == pid) = true) := by
    simp only [beq_iff_eq]
    exact hne
  rw [if_neg hcond]

theorem distributeWinnings_preserves_nonwinner
    (evaluations : List (String × HandEvaluation)) (s : GameState)
    (k : Nat) (p : GamePlayer) (hk : s.players[k]? = some p)
    (hne : ∀ pe ∈ evaluations, pe.1 ≠ p.playerId) :
    (distributeWinnings evaluations s).players[k]? = some p := by
  unfold distributeWinnings
  dsimp only
  refine foldl_preserves (fun st : GameState => st.players[k]? = some p) _ _ _
    ?_ ?_
  · intro st pot _ hp2
    dsimp only
    rcases hmax : maxEvaluation (List.map Prod.snd
        (List.filter (fun pe => pot.eligiblePlayers.contains pe.1)
          evaluations)) with _ | best
    · exact hp2
    · dsimp only
      split
      · exact hp2
      · refine foldl_preserves (fun st2 : GameState => st2.players[k]? = some p) _ _ _
          ?_ hp2
        intro st2 iw hiw hp3
        apply updatePlayer_getElem_other st2 iw.2 _ k p hp3
        have hsnd : iw.2 ∈ ((List.filter
            (fun pe => pe.2.ge best && !(pe.2.lt best))
            (List.filter (fun pe => pot.eligiblePlayers.contains pe.1)
              evaluations)).map Prod.fst) := by
          have hm := List.mem_map_of_mem Prod.snd hiw
          rwa [List.enum_map_snd] at hm
        obtain ⟨pe, hpe, heq⟩ := List.mem_map.mp hsnd
        have hpe2 : pe ∈ evaluations :=
          List.mem_of_mem_filter (List.mem_of_mem_filter hpe)
        intro hcon
        exact hne pe hpe2 (heq.trans hcon.symm)
  · split
    · exact hk
    · exact hk

theorem isInHand_eq_false_of_folded {p : GamePlayer}
    (hf : p.status = .folded) : p.isInHand = false := by
  unfold GamePlayer.isInHand
  rw [hf]
  decide

/-- **C5 amended**: a folded player's contribution stays in the pot
amounts and the player even stays listed in `SidePot.eligible_players`,
but only in-hand players are evaluated, so through the whole showdown
(side pots, evaluation, distribution) a folded player's entry — chips
included — is untouched: a folded player never receives winnings. -/
theorem C5_folded_no_winnings (s : GameState)
    (hnd : (s.players.map (·.playerId)).Nodup)
    (k : Nat) (p : GamePlayer) (hk : s.players[k]? = some p)
    (hf : p.status = .folded) :
    (handleShowdown s).players[k]? = some p := by
  have hcp : (calculateSidePots s).players = s.players := by
    unfold calculateSidePots
    dsimp only
    split <;> rfl
  unfold handleShowdown
  dsimp only
  apply distributeWinnings_preserves_nonwinner
  · rw [hcp]
    exact hk
  · intro pe hpe
    rw [hcp] at hpe
    obtain ⟨q, hq, rfl⟩ := List.mem_map.mp hpe
    have hq2 := List.mem_filter.mp hq
    intro hcon
    have hqp : q = p :=
      List.inj_on_of_nodup_map hnd hq2.1 (List.getElem?_mem hk) hcon
    rw [hqp, isInHand_eq_false_of_folded hf] at hq2
    cases hq2.2

/-- **C5 counterexample**: at the showdown of the short-stack hand the
third side pot's eligible list consists of folded players only — a
folded player sits in an eligible-winner set, and that pot has no live
eligible player. -/
theorem C5_counterexample :
    ∃ pot ∈ allInHandFinal.sidePots,
      ∀ pid ∈ pot.eligiblePlayers,
        ∃ p ∈ allInHandFinal.players,
          p.playerId = pid ∧ p.status = PlayerStatus.folded := by
  decide

/-- Witness for C5: the folded player A of `miniFoldedState` comes out
of the showdown with entry (and chips 7) unchanged. -/
theorem C5_witness :
    (handleShowdown miniFoldedState).players[0]?
      = some { playerId := "A", chips := 7, totalBet := 5,
               status := .folded } :=
  C5_folded_no_winnings miniFoldedState (by decide) 0
    { playerId := "A", chips := 7, totalBet := 5, status := .folded }
    (by decide) rfl

/-! ### C1 — chip conservation -/

/-- **C1**: the code at the failing input — in the 5/10 hand with stacks
200/30/20, the accepted sequence (A raises 40, B all-in, C all-in, A
folds on the flop) runs to showdown and GameOver, but the top side pot
(amount 20, eligible only the folded A) is skipped by distribution: the
players' chips sum to 230 at GameOver against 250 before the hand, so 20
chips are destroyed and conservation fails. -/
theorem C1_conservation_violated :
    ((threePlayerGame.players.map (·.chips)).sum = 250) ∧
    (startNewHand createDeck threePlayerGame).1 = true ∧
    allInHandStep1.1 = true ∧ allInHandStep2.1 = true ∧
    allInHandStep3.1 = true ∧
    (handlePlayerAction allInHandStep3.2 "A" PlayerAction.fold).1
      = true ∧
    allInHandFinal.gamePhase = GamePhase.gameOver ∧
    (∃ pot ∈ allInHandFinal.sidePots,
      pot.amount = 20 ∧ pot.eligiblePlayers = ["A"]) ∧
    ((allInHandFinal.players.map (·.chips)).sum = 230) := by
  decide

end Poker
